import Mathlib

set_option maxRecDepth 4000

/-!
Verification development for the diagram-generation orchestration pipeline of
the ExplainHub repository.  The TypeScript sources are shallowly embedded:
strings are lists of characters (`Str`), browser `localStorage` is a function
from keys to stored payloads, promise-chain scheduling is explicit state
passing over abstract timestamps, and external effects (HTTP fetch, JSON.parse
of AI output) are abstracted as explicitly supplied outcome values.
-/
/-- Text is modelled as a list of characters; `s.data` turns a literal into it. -/
abbrev Str := List Char

/-- Whitespace test used by the embeddings of JavaScript `trim` and the
regex class `\s` (ASCII subset, which is all the sources ever produce). -/
def isWS (c : Char) : Bool := c = ' ' || c = '\n' || c = '\t' || c = '\r'

/-- Embedding of JavaScript `String.prototype.trim`. -/
def trimStr (s : Str) : Str := ((s.dropWhile isWS).reverse.dropWhile isWS).reverse

/-! ## Cache service (src/unnamed/part_004)

`localStorage` is modelled as a function from keys to optional stored
payloads.  A payload is either a well-formed cache item (`good data timestamp`,
the parse of `JSON.stringify {data, timestamp}`) or `bad`, a malformed string
whose `JSON.parse` throws (the catch branch of `get` returns `null` without
touching the storage). -/
/-- Payload stored under a cache key: a parsed `CacheItem` or a malformed blob. -/
inductive Stored (α : Type) where
  | good (data : α) (timestamp : Nat)
  | bad
deriving DecidableEq

/-- The browser-local storage, keyed by raw storage keys. -/
def CacheStore (α : Type) := Str → Option (Stored α)

/-- Embedding of `CACHE_PREFIX = 'gemini_cache_'`. -/
def cachePre : Str := "gemini_cache_".data

/-- Embedding of `CACHE_EXPIRY_MS = 24 * 60 * 60 * 1000`. -/
def cacheExpiryMs : Nat := 24 * 60 * 60 * 1000

/-- Embedding of `cacheService.get`: read `CACHE_PREFIX + key`; a missing or
malformed payload yields `null`; an expired item is removed (lazy eviction)
and `null` returned; otherwise the stored data is returned.  The function
also returns the storage resulting from the call. -/
def cacheGet {α : Type} (now : Nat) (store : CacheStore α) (key : Str) :
    Option α × CacheStore α :=
  match store (cachePre ++ key) with
  | none => (none, store)
  | some .bad => (none, store)
  | some (.good v ts) =>
    if now - ts > cacheExpiryMs then
      (none, fun k => if k = cachePre ++ key then none else store k)
    else (some v, store)

/-- Embedding of `cacheService.set`: store `{data, timestamp: Date.now()}`
under `CACHE_PREFIX + key`. -/
def cacheSet {α : Type} (now : Nat) (store : CacheStore α) (key : Str) (v : α) :
    CacheStore α :=
  fun k => if k = cachePre ++ key then some (.good v now) else store k

/-- Character sanitizer of `generateKey`: the regex `[^a-zA-Z0-9]` replaced by
an underscore. -/
def keySanChar (c : Char) : Char := if c.isAlphanum then c else '_'

/-- The `type` parameter of `generateKey`. -/
inductive CacheTy where
  | explanation | diagram | codeQa
deriving DecidableEq

/-- String form of the `type` union member. -/
def cacheTyStr : CacheTy → Str
  | .explanation => "explanation".data
  | .diagram => "diagram".data
  | .codeQa => "code_qa".data

/-- Embedding of `cacheService.generateKey`. -/
def generateKey (repoName path : Str) (ty : CacheTy) : Str :=
  repoName.map keySanChar ++ "_".data ++ cacheTyStr ty ++ "_".data ++ path.map keySanChar

/-- Concrete storage used by witnesses: one well-formed entry written at
timestamp 1 under the cache key `k`. -/
def demoStore : CacheStore Nat :=
  fun s => if s = "gemini_cache_k".data then some (.good 5 1) else none

/-! ## Substring occurrences

`countOcc m s` counts the positions of `s` at which the pattern `m` occurs,
the formal reading of "the output contains exactly N markers / edges". -/
/-- Number of positions of `s` at which `m` occurs as a contiguous substring. -/
def countOcc (m s : Str) : Nat :=
  ((List.range (s.length + 1)).filter (fun p => decide (m <+: s.drop p))).length

/-- Decimal rendering of a natural number, the embedding of a JavaScript
number interpolated into a template literal. -/
def numStr (n : Nat) : Str := Nat.toDigits 10 n

/-! ## Response fence stripping (geminiApi.ts lines 452-460 and 556-560)

Two different cleanup chains extract the JSON payload from the raw model
text: `generateArchitectureDiagram` applies the regex replaces `^```json\s*`
and ```` ```\s*$ ```` followed by `trim()`, while `extractArchitectureData`
applies `^[\s\S]*?```json` (global), then ```` ```[\s\S]*?$ ```` (global),
then `trim()` and finally the global replace of ```` ``` ````. -/
/-- Embedding of the regex replace `^```json\s*` by the empty string: when the
text starts with the tagged fence, the fence and the following whitespace run
are removed. -/
def stripJsonTagFence (s : Str) : Str :=
  if "```json".data.isPrefixOf s then (s.drop 7).dropWhile isWS else s

/-- Leftmost position at which three backticks are followed only by
whitespace, the match position of the regex ```` ```\s*$ ````. -/
def fenceTailIdx : Str → Option Nat
  | [] => none
  | c :: cs =>
    if "```".data.isPrefixOf (c :: cs) && ((c :: cs).drop 3).all isWS
    then some 0
    else (fenceTailIdx cs).map (· + 1)

/-- Embedding of the regex replace ```` ```\s*$ ```` by the empty string. -/
def stripTrailingFence (s : Str) : Str :=
  match fenceTailIdx s with
  | some p => s.take p
  | none => s

/-- The `jsonStr` cleanup chain of `generateArchitectureDiagram`. -/
def genArchJsonStr (text : Str) : Str :=
  trimStr (stripTrailingFence (stripJsonTagFence text))

/-- Leftmost index of the pattern `m` inside a string, `none` when absent. -/
def subIdx (m : Str) : Str → Option Nat
  | [] => if m.isEmpty then some 0 else none
  | c :: cs => if m.isPrefixOf (c :: cs) then some 0 else (subIdx m cs).map (· + 1)

/-- Embedding of the replace of `^[\s\S]*?```json` by the empty string: the
shortest prefix ending in the tagged fence opener is removed. -/
def stripUptoJsonTag (s : Str) : Str :=
  match subIdx "```json".data s with
  | some i => s.drop (i + 7)
  | none => s

/-- Embedding of the replace of ```` ```[\s\S]*?$ ```` by the empty string:
everything from the first fence on is removed. -/
def stripFromFirstFence (s : Str) : Str :=
  match subIdx "```".data s with
  | some i => s.take i
  | none => s

/-- Embedding of the global replace of three backticks by the empty string. -/
def removeAllFence (s : Str) : Str :=
  match s with
  | [] => []
  | c :: cs =>
    if "```".data.isPrefixOf (c :: cs) then removeAllFence (cs.drop 2)
    else c :: removeAllFence cs
termination_by s.length
decreasing_by
  all_goals simp
  omega

/-- The `jsonStr`/`cleanJson` cleanup chain of `extractArchitectureData`. -/
def extractArchJsonStr (content : Str) : Str :=
  removeAllFence (trimStr (stripFromFirstFence (stripUptoJsonTag content)))

/-- Concrete counterexample input: a fenced block with no language tag. -/
def bareFenced : Str := "```\n\x7b\"modules\":[]\x7d\n```".data

/-- The inner text of `bareFenced`. -/
def innerJson : Str := "\x7b\"modules\":[]\x7d".data

/-- Strings consisting only of whitespace. -/
abbrev wsOnly (s : Str) : Prop := ∀ c ∈ s, isWS c = true

/-! ## Prompt builders with truncation (geminiApi.ts lines 92-228)

`generateFileExplanation` uses a 15000-character budget and
`generateCodeQuestionResponse` a 12000-character budget.  Over budget, the
first and last half-budget slices are kept around a marker line.  The prompt
text around the content is embedded as the two literal segments the template
produces before and after `contentToSend`. -/
/-- The marker inserted by `generateFileExplanation`, which includes the
number of omitted characters. -/
def fileMarker (omitted : Nat) : Str :=
  "... [middle section truncated - ".data ++ numStr omitted
    ++ " characters omitted] ...".data

/-- The `contentToSend` computation of `generateFileExplanation`. -/
def contentToSendFile (c : Str) : Str :=
  if c.length > 15000 then
    c.take 7500 ++ "\n\n".data ++ fileMarker (c.length - 15000) ++ "\n\n".data
      ++ c.drop (c.length - 7500)
  else c

/-- The marker inserted by `generateCodeQuestionResponse`; it carries no
omitted-character count. -/
def qaMarker : Str := "... [middle section omitted] ...".data

/-- The `contentToSend` computation of `generateCodeQuestionResponse`. -/
def contentToSendQA (c : Str) : Str :=
  if c.length > 12000 then
    c.take 6000 ++ "\n\n".data ++ qaMarker ++ "\n\n".data ++ c.drop (c.length - 6000)
  else c

/-- Embedding of `fileContent.split('\n').length`. -/
def lineCount (c : Str) : Nat := c.count '\n' + 1

/-- Embedding of `filePath.split('.').pop()?.toLowerCase() || ''`. -/
def extOf (fp : Str) : Str := ((fp.splitOn '.').getLastD []).map Char.toLower

/-- The source-code extension list of `generateFileExplanation`. -/
def codeExts : List Str :=
  ["py".data, "pyw".data, "js".data, "jsx".data, "ts".data, "tsx".data]

/-- The config extension list of `generateFileExplanation`. -/
def configExts : List Str := ["toml".data, "yaml".data, "yml".data, "xml".data]

/-- Instruction tail appended for source-code files. -/
def tailCode : Str :=
  "Provide a comprehensive explanation covering:\n\n1. **Purpose & Overview**: What this file does and its role in the project (2-3 sentences)\n2. **Key Components**: Main functions, classes, or components with their purposes\n3. **Implementation Details**: Important patterns, algorithms, or logic flows\n4. **Dependencies**: Key imports and how they're used\n5. **Notable Features**: Any interesting patterns, optimizations, or important details\n\nBe thorough and detailed. Explain the logic and reasoning behind the code.".data

/-- Instruction tail appended for `json` files. -/
def tailJson : Str :=
  "Provide a detailed explanation covering:\n\n1. **Configuration Purpose**: What this configuration controls (2-3 sentences)\n2. **Key Settings**: Important configuration values and their meanings\n3. **Impact**: How these settings affect the project\n4. **Notable Entries**: Any particularly important or interesting configurations\n\nBe thorough and explain the significance of the configuration.".data

/-- Instruction tail appended for `md` files. -/
def tailMd : Str :=
  "Provide a comprehensive summary covering:\n\n1. **Document Purpose**: What this document covers (2-3 sentences)\n2. **Main Sections**: Overview of the major sections and topics\n3. **Key Information**: Important details, instructions, or guidelines\n4. **Highlights**: Notable points that developers should know\n\nBe thorough and informative.".data

/-- Instruction tail appended for other config formats. -/
def tailConfig : Str :=
  "Provide a detailed explanation covering:\n\n1. **Configuration Purpose**: What this configuration file controls (2-3 sentences)\n2. **Key Settings**: Important configuration values and their effects\n3. **Structure**: How the configuration is organized\n4. **Impact**: How these settings affect the project\n\nBe thorough and explain the configuration's significance.".data

/-- Instruction tail appended for any other file kind. -/
def tailOther : Str :=
  "Provide a comprehensive explanation covering:\n\n1. **Purpose**: What this file does and why it exists (2-3 sentences)\n2. **Content Analysis**: Key elements and their purposes\n3. **Structure**: How the file is organized\n4. **Important Details**: Notable aspects developers should understand\n\nBe thorough and detailed in your explanation.".data

/-- The extension dispatch of `generateFileExplanation`. -/
def tailFor (ext : Str) : Str :=
  if ext ∈ codeExts then tailCode
  else if ext = "json".data then tailJson
  else if ext = "md".data then tailMd
  else if ext ∈ configExts then tailConfig
  else tailOther

/-- The conditional statistics line of the file prompt. -/
def truncNoteFile (c : Str) : Str :=
  if c.length > 15000 then
    "- Note: Middle section truncated, but you have beginning and end for full understanding\n".data
  else "- Status: Complete file content provided\n".data

/-- The conditional portion note of the file prompt instructions. -/
def portionNote (c : Str) : Str :=
  if c.length > 15000 then "substantial portions of".data else "the complete".data

/-- The file-explanation prompt text before `contentToSend`. -/
def segAfile (fp repo c : Str) : Str :=
  "You are analyzing the file \"".data ++ fp ++ "\" from the ".data ++ repo
    ++ " repository.\n\nFILE STATISTICS:\n- Lines: ".data ++ numStr (lineCount c)
    ++ "\n- Characters: ".data ++ numStr c.length ++ "\n".data
    ++ truncNoteFile c ++ "\nFILE CONTENT:\n```\n".data

/-- The file-explanation prompt text after `contentToSend`. -/
def segBfile (fp c : Str) : Str :=
  "\n```\n\nIMPORTANT INSTRUCTIONS:\n- You have ".data ++ portionNote c
    ++ " file content above\n- DO NOT mention \"incomplete context\", \"limited context\", or \"need more information\"\n- Analyze and explain based on what IS provided\n- Be thorough and detailed in your explanation\n- Focus on what the code DOES and WHY it matters\n\n".data
    ++ tailFor (extOf fp)

/-- Embedding of the `generateFileExplanation` prompt. -/
def promptFile (fp repo c : Str) : Str :=
  segAfile fp repo c ++ contentToSendFile c ++ segBfile fp c

/-- The conditional portion tag of the question prompt. -/
def qaPortion (c : Str) : Str :=
  if c.length > 12000 then "SUBSTANTIAL".data else "COMPLETE".data

/-- The question-answering prompt text before `contentToSend`. -/
def segAqa (fp repo q c : Str) : Str :=
  "You are answering a question about the file \"".data ++ fp ++ "\" from the ".data
    ++ repo ++ " repository.\n\nUSER QUESTION: \"".data ++ q ++ "\"\n\n".data
    ++ qaPortion c ++ " FILE CONTENT:\n```\n".data

/-- The question-answering prompt text after `contentToSend`. -/
def segBqa : Str :=
  "\n```\n\nINSTRUCTIONS:\n- Answer the question directly and thoroughly based on the code provided\n- DO NOT mention \"incomplete context\" or \"need more information\" - work with what's provided\n- Reference specific code sections when relevant\n- Be detailed and helpful\n- If the answer requires context from the visible code, explain it fully\n\nProvide a clear, comprehensive answer:".data

/-- Embedding of the `generateCodeQuestionResponse` prompt. -/
def promptQA (fp repo q c : Str) : Str :=
  segAqa fp repo q c ++ contentToSendQA c ++ segBqa

/-- Witness content exceeding the 15000-character file budget. -/
def bigA : Str := List.replicate 15001 'a'

/-- Witness content exceeding the 12000-character question budget. -/
def bigB : Str := List.replicate 12001 'b'

/-! ## Diagram synthesizers

`architectureGenerator.ts` converts an `ArchitectureData` (components /
relationships / layers) and `geminiApi.ts` converts a `DiagramData`
(modules / components / relationships); both emit Mermaid text.  JavaScript
`undefined` string fields are modelled as `Option`; the falsy-default idiom
`x || d` on a string is modelled by `orDefault` (the empty string is falsy). -/
/-- Sanitizer of both converters: the regex `[^a-zA-Z0-9_]` replaced by an
underscore. -/
def sanitizeChar (c : Char) : Char := if c.isAlphanum || c = '_' then c else '_'

/-- Identifier sanitization `str.replace(/[^a-zA-Z0-9_]/g, '_')`. -/
def sanitizeId (s : Str) : Str := s.map sanitizeChar

/-- Embedding of `str.replace(/"/g, "'")`. -/
def unquote (s : Str) : Str := s.map (fun c => if c = '"' then '\'' else c)

/-- The `quote` helper of `architectureGenerator.ts`: replace double quotes by
single quotes and wrap in double quotes. -/
def quoteStr (s : Str) : Str := "\"".data ++ unquote s ++ "\"".data

/-- Embedding of the JavaScript falsy-default `s || d` for strings. -/
def orDefault (s d : Str) : Str := if s = [] then d else s

/-- Keep-first deduplication, the order semantics of
`Array.from(new Set(xs))`. -/
def dedupFirst : List Str → List Str
  | [] => []
  | a :: as => a :: dedupFirst (as.filter (fun x => x ≠ a))
termination_by l => l.length
decreasing_by
  simp only [List.length_cons]
  exact Nat.lt_succ_of_le (List.length_filter_le _ _)

/-- Component of `ArchitectureData` (types/architecture.ts); the `type` field
is unused by the converter. -/
structure ArchComponent where
  id : Str
  name : Str
  ctype : Str
  layer : Option Str
deriving DecidableEq

/-- Relationship of `ArchitectureData`; `fromId`/`toId` embed `from`/`to`. -/
structure ArchRelationship where
  fromId : Str
  toId : Str
  rtype : Str
  description : Option Str
deriving DecidableEq

/-- The `ArchitectureData` shape consumed by
`ArchitectureGeneratorService.convertJsonToMermaid`. -/
structure ArchitectureData where
  components : List ArchComponent
  relationships : List ArchRelationship
  layers : Option (List Str)
deriving DecidableEq

/-- The component-in-layer filter
`c.layer?.toLowerCase() === layerName.toLowerCase() || (!c.layer && layerName === 'Other')`. -/
def agLayerCond (c : ArchComponent) (layerName : Str) : Bool :=
  (match c.layer with
   | some l => l.map Char.toLower == layerName.map Char.toLower
   | none => false)
  || ((match c.layer with
       | some l => l == ([] : Str)
       | none => true)
      && layerName == "Other".data)

/-- The `validLayers` computation
`layers || Array.from(new Set(components.map(c => c.layer)))`; a component
with no `layer` contributes the empty string on the fallback branch. -/
def agValidLayers (d : ArchitectureData) : List Str :=
  match d.layers with
  | some ls => ls
  | none => dedupFirst (d.components.map (fun c => c.layer.getD []))

/-- One emitted component line of the layer loop. -/
def agComponentLine (c : ArchComponent) : Str :=
  "        ".data ++ sanitizeId c.id ++ "[".data ++ quoteStr c.name ++ "]\n".data

/-- One emitted `subgraph` block of the layer loop. -/
def agLayerBlock (d : ArchitectureData) (layerName : Str) : Str :=
  "    subgraph ".data ++ sanitizeId layerName ++ " [".data ++ quoteStr layerName
    ++ "]\n".data
    ++ ((d.components.filter (fun c => agLayerCond c layerName)).map agComponentLine).flatten
    ++ "    end\n".data

/-- Arrow choice: default solid, dashed for `imports`/`uses`, labelled for
`inherits` (the last assignment wins in the source). -/
def agArrow (rtype : Str) : Str :=
  if rtype = "inherits".data then "--|inherits|-->".data
  else if rtype = "imports".data || rtype = "uses".data then "-.->".data
  else "-->".data

/-- One emitted relationship line; note the source renders every relationship
unconditionally (its endpoint-existence check is commented out). -/
def agRelLine (r : ArchRelationship) : Str :=
  let label := match r.description with
    | some d2 => "|".data ++ quoteStr d2 ++ "|".data
    | none => []
  "    ".data ++ sanitizeId r.fromId ++ " ".data ++ agArrow r.rtype ++ " ".data
    ++ label ++ " ".data ++ sanitizeId r.toId ++ "\n".data

/-- Trailing styling and the AI status subgraph of
`ArchitectureGeneratorService.convertJsonToMermaid`. -/
def agStatusBlock : Str :=
  "\n    classDef default fill:#1f2937,stroke:#3b82f6,stroke-width:2px,color:#fff;\n".data
    ++ "    subgraph Status [ ]\n        style Status fill:transparent,stroke:none\n        direction LR\n        AI_GEN[\"âœ¨ AI Generated Architecture\"]:::status\n    end\n".data
    ++ "    classDef status fill:#10b981,stroke:#059669,color:white;\n".data

/-- Embedding of `ArchitectureGeneratorService.convertJsonToMermaid`. -/
def convertJsonToMermaidAG (d : ArchitectureData) : Str :=
  "graph TD\n".data
    ++ ((agValidLayers d).map (agLayerBlock d)).flatten
    ++ (d.relationships.map agRelLine).flatten
    ++ agStatusBlock

/-- Component of the `DiagramData` shape of `generateArchitectureDiagram`. -/
structure GaComponent where
  id : Str
  label : Str
deriving DecidableEq

/-- Module of `DiagramData`. -/
structure GaModule where
  label : Str
  components : List GaComponent
deriving DecidableEq

/-- Relationship of `DiagramData`; the optional `label` is not rendered. -/
structure GaRel where
  fromId : Str
  toId : Str
  rtype : Str
  label : Option Str
deriving DecidableEq

/-- The `DiagramData` shape consumed by the `convertJsonToMermaid` of
`geminiApi.ts`. -/
structure DiagramData where
  modules : List GaModule
  relationships : List GaRel
deriving DecidableEq

/-- The sanitized id of a component, `(comp.id || 'node').replace(...)`. -/
def gaSafeId (c : GaComponent) : Str := sanitizeId (orDefault c.id "node".data)

/-- All node ids added to `validIds` (every module is processed before any
relationship). -/
def gaNodeIds (d : DiagramData) : List Str :=
  (d.modules.map (fun m => m.components.map gaSafeId)).flatten

/-- One emitted node declaration of the module loop. -/
def gaComponentLine (c : GaComponent) : Str :=
  "        ".data ++ gaSafeId c ++ "[\"".data
    ++ unquote (orDefault c.label (gaSafeId c)) ++ "\"]\n".data

/-- One emitted `subgraph` block of the module loop. -/
def gaModuleBlock (m : GaModule) : Str :=
  "    subgraph \"".data ++ unquote (orDefault m.label "Module".data) ++ "\"\n".data
    ++ (m.components.map gaComponentLine).flatten
    ++ "    end\n".data

/-- The sanitized endpoint pairs of the relationships that pass the
`validIds.has(fromId) && validIds.has(toId)` guard. -/
def gaEdgePairs (d : DiagramData) : List (Str × Str) :=
  (d.relationships.map (fun r => (sanitizeId r.fromId, sanitizeId r.toId))).filter
    (fun p => (gaNodeIds d).contains p.1 && (gaNodeIds d).contains p.2)

/-- One emitted relationship line (empty when an endpoint is not a declared
node: "Only draw edges between valid, existing nodes"). -/
def gaRelLine (d : DiagramData) (r : GaRel) : Str :=
  let fromId := sanitizeId r.fromId
  let toId := sanitizeId r.toId
  if (gaNodeIds d).contains fromId && (gaNodeIds d).contains toId then
    let arrow := if r.rtype = "dotted".data then "-.->".data else "-->".data
    "    ".data ++ fromId ++ " ".data ++ arrow ++ " ".data ++ toId ++ "\n".data
  else []

/-- Embedding of the `convertJsonToMermaid` of `geminiApi.ts`. -/
def convertJsonToMermaidGA (d : DiagramData) : Str :=
  "graph TD\n".data
    ++ (d.modules.map gaModuleBlock).flatten
    ++ (d.relationships.map (gaRelLine d)).flatten
    ++ "\n    classDef default fill:#1f2937,stroke:#3b82f6,stroke-width:2px,color:#fff;".data

/-- Substring test via the leftmost-occurrence search. -/
def hasSub (m s : Str) : Bool := (subIdx m s).isSome

/-- An edge declaration of the diagram markup grammar. -/
def isEdgeLine (l : Str) : Bool :=
  hasSub ("-->".data) l || hasSub ("-.->".data) l

/-- A node declaration: both converters emit nodes at eight spaces of
indentation with a bracketed label. -/
def isNodeLine (l : Str) : Bool :=
  "        ".data.isPrefixOf l && hasSub ("[".data) l

/-- Number of edge declarations in a markup text. -/
def countEdgeLines (s : Str) : Nat := ((s.splitOn '\n').filter isEdgeLine).length

/-- Number of node declarations in a markup text. -/
def countNodeLines (s : Str) : Nat := ((s.splitOn '\n').filter isNodeLine).length

/-- The concrete input of the claim: components `a`, `b` and one relationship
`a -> c` with a dangling endpoint. -/
def cexData : ArchitectureData :=
  ⟨[⟨"a".data, "a".data, "service".data, some ("services".data)⟩,
    ⟨"b".data, "b".data, "service".data, some ("services".data)⟩],
   [⟨"a".data, "c".data, "calls".data, none⟩],
   some ["services".data]⟩

/-- The same scenario in the `DiagramData` shape. -/
def gaScenario : DiagramData :=
  ⟨[⟨"Module 1".data, [⟨"a".data, "A".data⟩, ⟨"b".data, "B".data⟩]⟩],
   [⟨"a".data, "c".data, "solid".data, none⟩]⟩

/-- A `DiagramData` with one valid edge, used by the witness. -/
def gaScenario2 : DiagramData :=
  ⟨[⟨"M".data, [⟨"a".data, "A".data⟩, ⟨"b".data, "B".data⟩]⟩],
   [⟨"a".data, "b".data, "dotted".data, none⟩]⟩

/-! ## RateLimiter (geminiApi.ts lines 6-40)

`schedule` chains each operation on `this.queue`; the chained continuation
reads `Date.now()` (the settle time of the previous link), sleeps
`MIN_INTERVAL - (now - lastCallTime)` when that is positive, sets
`lastCallTime` to the post-sleep clock and runs the operation.  The queue is
then replaced by `operation.then(noop, noop)`, so a rejected operation
advances the chain exactly like a fulfilled one.  The single-threaded
event loop is modelled as explicit state passing over abstract millisecond
timestamps. -/
/-- Embedding of `MIN_INTERVAL = 3500`. -/
def MIN_INTERVAL : Nat := 3500

/-- An operation handed to `schedule`: its wall-clock duration from begin to
settle, and whether its promise fulfils (`ok = false` models a throwing or
rejecting operation; it does not affect scheduling). -/
structure QOp where
  duration : Nat
  ok : Bool

/-- Queue state: the settle time of `this.queue` and `lastCallTime`. -/
structure SchedState where
  qTime : Nat
  lastCallTime : Nat

/-- Begin time of the next operation. -/
def schedStart (s : SchedState) : Nat :=
  if s.qTime - s.lastCallTime < MIN_INTERVAL then s.lastCallTime + MIN_INTERVAL
  else s.qTime

/-- One `schedule` step: the begun operation's start time and the state seen
by the next chained operation. -/
def schedStep (s : SchedState) (op : QOp) : Nat × SchedState :=
  let st := schedStart s
  (st, ⟨st + op.duration, st⟩)

/-- Start times of operations submitted to `schedule`, in submission order. -/
def runSched (s : SchedState) : List QOp → List Nat
  | [] => []
  | op :: rest => (schedStep s op).1 :: runSched (schedStep s op).2 rest

/-! ## callGeminiAPI (geminiApi.ts lines 624-738)

The body scheduled on the rate limiter loops over two model names with two
attempts each.  The environment (each `fetch` and its response handling) is
abstracted as a list of outcomes consumed one per issued request; an
exhausted list behaves as a network error.  All times are relative to the
operation's start. -/
/-- Outcome of one outbound request: an ok response with an optional
candidate text, a non-ok status with an optional `Retry-After` header in
seconds, or a thrown network/parse error. -/
inductive FetchResult where
  | okText (t : Option Str)
  | httpErr (status : Nat) (retryAfter : Option Nat)
  | netErr
deriving DecidableEq

/-- One outcome: response latency in milliseconds, and the result. -/
structure FOut where
  latency : Nat
  result : FetchResult
deriving DecidableEq

/-- The `lastError` distinctions the final degraded branch can observe;
`JSON.stringify` of the stored error is abstracted by `describeErr`. -/
inductive LastErr where
  | noneE | e429 | httpOther (status : Nat) | noText | netE
deriving DecidableEq

/-- Abstraction of the serialized `lastError` message text. -/
def describeErr : LastErr → Str
  | .noneE => "Unknown error".data
  | .e429 => "Rate limit / Quota exceeded".data
  | .httpOther s => "API status ".data ++ numStr s
  | .noText => "No text in response".data
  | .netE => "fetch failed".data

/-- Result of a (partial) run of the model/attempt loops: remaining
outcomes, elapsed clock, issue times of the requests made, the last error,
and the successful text when one was obtained. -/
structure MRes where
  rem : List FOut
  time : Nat
  fetches : List Nat
  le : LastErr
  txt : Option Str

/-- The attempt loop for one model (first argument of the recursion is the
number of attempts left; the second is the attempt index `attempt`).  An
attempt with positive index first sleeps the `2^attempt * 1000` backoff; a
429 with a `Retry-After` header sleeps it and retries the same model; a 429
without one, any other status, and a missing candidate text break to the
next model; a thrown error retries unless this was the final attempt. -/
def runModel (model : Str) : Nat → Nat → List FOut → Nat → LastErr → MRes
  | 0, _, outs, t, le => ⟨outs, t, [], le, none⟩
  | k + 1, i, outs, t, le =>
    let t1 := if 0 < i then t + 2 ^ i * 1000 else t
    let fo := outs.headD ⟨0, .netErr⟩
    let t2 := t1 + fo.latency
    let rest : MRes :=
      match fo.result with
      | .okText (some txt) => ⟨outs.tail, t2, [], le, some txt⟩
      | .okText none => ⟨outs.tail, t2, [], .noText, none⟩
      | .httpErr st ra =>
        if st = 429 then
          match ra with
          | some r => runModel model k (i + 1) outs.tail (t2 + r * 1000) .e429
          | none => ⟨outs.tail, t2, [], .e429, none⟩
        else ⟨outs.tail, t2, [], .httpOther st, none⟩
      | .netErr =>
        if k = 0 then ⟨outs.tail, t2, [], .netE, none⟩
        else runModel model k (i + 1) outs.tail t2 .netE
    ⟨rest.rem, rest.time, t1 :: rest.fetches, rest.le, rest.txt⟩

/-- The prioritized model list of `callGeminiAPI`. -/
def modelNames : List Str :=
  ["gemini-3-flash-preview".data, "gemini-2.5-flash".data]

/-- The outer model loop: a successful text returns immediately; otherwise
the next model is tried with the remaining outcomes (`maxRetries = 2`). -/
def runModels : List Str → List FOut → Nat → LastErr → MRes
  | [], outs, t, le => ⟨outs, t, [], le, none⟩
  | m :: ms, outs, t, le =>
    let r := runModel m 2 0 outs t le
    match r.txt with
    | some txt => ⟨r.rem, r.time, r.fetches, r.le, some txt⟩
    | none =>
      let r2 := runModels ms r.rem r.time r.le
      ⟨r2.rem, r2.time, r.fetches ++ r2.fetches, r2.le, r2.txt⟩

/-- The scheduled body of `callGeminiAPI`, run at relative time 0. -/
def geminiBody (outs : List FOut) : MRes := runModels modelNames outs 0 .noneE

/-- Issue times (relative to the operation's start) of every outbound call
one scheduled `callGeminiAPI` operation makes. -/
def bodyFetchOffsets (outs : List FOut) : List Nat := (geminiBody outs).fetches

/-- Total elapsed time of the scheduled body. -/
def bodyElapsed (outs : List FOut) : Nat := (geminiBody outs).time

/-- Embedding of `extractCodeSnippets`, the global regex match of lazily
fenced blocks. -/
def extractCodeSnippets (s : Str) : List Str :=
  match h1 : subIdx "```".data s with
  | none => []
  | some i =>
    match subIdx "```".data (s.drop (i + 3)) with
    | none => []
    | some j =>
      (s.drop i).take (j + 6)
        :: extractCodeSnippets ((s.drop (i + 3)).drop (j + 3))
termination_by s.length
decreasing_by
  have hs : s ≠ [] := by
    intro he
    rw [he] at h1
    simp [subIdx] at h1
  rcases s with _ | ⟨c, cs⟩
  · exact absurd rfl hs
  · simp [List.length_drop]
    omega

/-- The `Explanation` interface of `geminiApi.ts`. -/
structure Explanation where
  content : Str
  codeSnippets : List Str
deriving DecidableEq

/-- The degraded rate-limit message. -/
def rateLimitMsg : Str :=
  "⚠️ **Rate Limit Exceeded**\nPlease wait a moment. The Free Tier limit is strict (15 req/min). We are pacing requests, but you may have hit the daily quota.".data

/-- The generic degraded message. -/
def genFailMsg (le : LastErr) : Str :=
  "⚠️ Generation Failed.\nLast error: ".data ++ describeErr le

/-- What the scheduled body resolves with: the successful text with its
extracted snippets, or a degraded `Explanation`. -/
def bodyResult (outs : List FOut) : Explanation :=
  match (geminiBody outs).txt with
  | some txt => ⟨txt, extractCodeSnippets txt⟩
  | none =>
    if (geminiBody outs).le = .e429 then ⟨rateLimitMsg, []⟩
    else ⟨genFailMsg (geminiBody outs).le, []⟩

/-- Embedding of `callGeminiAPI`: an empty API key throws before anything is
scheduled; otherwise the scheduled body always resolves. -/
def callGeminiAPIm (apiKey : Str) (outs : List FOut) : Except Str Explanation :=
  if apiKey = [] then Except.error ("Gemini API key is required".data)
  else Except.ok (bodyResult outs)

/-- Fulfilment test for an `Except`. -/
def exceptOk {ε α : Type} : Except ε α → Bool
  | .ok _ => true
  | .error _ => false

/-- An outcome carrying no candidate text (every failing outcome). -/
def noTextOut (fo : FOut) : Bool :=
  match fo.result with
  | .okText (some _) => false
  | _ => true

/-- Each scheduled `callGeminiAPI` operation, as seen by the rate limiter. -/
def geminiQOp (outs : List FOut) : QOp :=
  ⟨bodyElapsed outs, (geminiBody outs).txt.isSome⟩

/-- Start times of a sequence of queued `callGeminiAPI` operations. -/
def geminiOpStarts (s : SchedState) (outsList : List (List FOut)) : List Nat :=
  runSched s (outsList.map geminiQOp)

/-- The two failing outcomes used by several witnesses: each model's first
attempt gets a 500 with no `Retry-After`, so the loop breaks to the next
model and then runs out. -/
def failOuts : List FOut := [⟨0, .httpErr 500 none⟩, ⟨0, .httpErr 500 none⟩]

/-- The counterexample outcomes for C3: the first model's only attempt fails
with a 500 after 100 ms, and the next model's first attempt is issued
immediately. -/
def c3Outs : List FOut := [⟨100, .httpErr 500 none⟩, ⟨0, .okText (some ("hi".data))⟩]

/-! ## Fallback generator (fallbackGenerator.ts)

The directory tree walk keeps directories other than `node_modules`, `.git`
and `dist` plus four important root files, emits one edge per kept node,
stops below depth 1 and beyond 15 nodes, and is prefixed by an offline-mode
marker subgraph. -/
/-- A directory tree node: `name`, `type` (`dir` or `file`) and children. -/
inductive DTree where
  | node (name : Str) (ty : Str) (children : List DTree)

/-- Name accessor. -/
def DTree.name : DTree → Str
  | .node n _ _ => n

/-- Type accessor. -/
def DTree.ty : DTree → Str
  | .node _ t _ => t

/-- Children accessor. -/
def DTree.children : DTree → List DTree
  | .node _ _ cs => cs

mutual
/-- The `traverse` closure of `generateLocalArchitecture`; the state is
`(nodeCount, mermaid)`. -/
def travNode (n : DTree) (pid : Str) (depth : Nat) (st : Nat × Str) : Nat × Str :=
  if depth > 1 || st.1 > 15 then st
  else travChildren n.children pid depth st
termination_by (sizeOf n, 0)
decreasing_by
  simp_wf
  apply Prod.Lex.left
  rcases n with ⟨nm, t, cs⟩
  simp [DTree.children]

/-- The `forEach` over the relevant children (the filter is folded into a
per-child keep test, which preserves order and semantics). -/
def travChildren (cs : List DTree) (pid : Str) (depth : Nat) (st : Nat × Str) :
    Nat × Str :=
  match cs with
  | [] => st
  | c :: rest =>
    let keep := (c.ty == "dir".data
        && !(["node_modules".data, ".git".data, "dist".data].contains c.name))
      || ["package.json".data, "README.md".data, "Dockerfile".data,
          "compose.yml".data].contains c.name
    if keep then
      if st.1 > 15 then travChildren rest pid depth st
      else
        let childId := "node_".data ++ numStr st.1
        let acc2 := st.2 ++ "    ".data ++ pid ++ " --> ".data ++ childId
          ++ "[\"".data ++ c.name ++ "\"]\n".data
        travChildren rest pid depth
          (if c.ty == "dir".data then travNode c childId (depth + 1) (st.1 + 1, acc2)
           else (st.1 + 1, acc2))
    else travChildren rest pid depth st
termination_by (sizeOf cs, 1)
decreasing_by
  all_goals simp_wf
  all_goals first
    | exact Prod.Lex.left _ _ (by simp; omega)
    | exact Prod.Lex.right _ (by omega)
    | (apply Prod.Lex.left; simp; omega)
    | (apply Prod.Lex.left; omega)
end

/-- Embedding of `generateLocalArchitecture`. -/
def generateLocalArchitecture (repoStructure : DTree) : Str :=
  (travNode repoStructure ("root".data) 0 (0,
    "graph TD\n".data
    ++ "    classDef default fill:#1f2937,stroke:#3b82f6,stroke-width:2px,color:#fff;\n".data
    ++ "    classDef status fill:#374151,stroke:#6b7280,stroke-dasharray: 5 5;\n".data
    ++ "    subgraph Status [\"Metadata\"]\n".data
    ++ "        direction TB\n".data
    ++ "        fallback[\"⚠️ Offline Mode\"]:::status\n".data
    ++ "    end\n".data
    ++ "    root[\"Repository Root\"]\n".data)).2

/-! ## generateArchitectureDiagram (geminiApi.ts lines 283-485)

The cache is checked first; on a miss the scheduled body retries up to three
times, each attempt fetching once and, on an ok response, stripping the
tagged fence (`genArchJsonStr`) and parsing.  `JSON.parse` together with the
`modules` shape guard of `convertJsonToMermaid` is abstracted as a supplied
`jparse : Str → Option DiagramData`.  On success the converted diagram is
cached and returned; after three failed attempts the local fallback diagram
is returned and the error is not propagated.  The prompt text does not
influence any claim and is not materialized; timing is modelled in the rate
limiter section. -/
/-- One attempt: an ok response whose cleaned text parses yields the data;
anything else (non-ok status, missing text, parse failure) fails the
attempt. -/
def archAttempt (jparse : Str → Option DiagramData) (fo : FOut) :
    Option DiagramData :=
  match fo.result with
  | .okText (some txt) => jparse (genArchJsonStr txt)
  | _ => none

/-- Failure test for one attempt. -/
def archAttemptFails (jparse : Str → Option DiagramData) (fo : FOut) : Bool :=
  (archAttempt jparse fo).isNone

/-- The retry loop (`maxRetries = 3`), returning the diagram, the resulting
storage and the number of outbound calls issued. -/
def archAttemptLoop (jparse : Str → Option DiagramData) (now : Nat)
    (store : CacheStore Str) (key : Str) (tree : DTree) :
    Nat → List FOut → Nat → Str × CacheStore Str × Nat
  | 0, _, count => (generateLocalArchitecture tree, store, count)
  | k + 1, outs, count =>
    match archAttempt jparse (outs.headD ⟨0, .netErr⟩) with
    | some dd =>
      (convertJsonToMermaidGA dd,
       cacheSet now store key (convertJsonToMermaidGA dd), count + 1)
    | none => archAttemptLoop jparse now store key tree k outs.tail (count + 1)

/-- Embedding of `generateArchitectureDiagram`: cache check (a cached empty
string is falsy and treated as a miss), then the retry loop. -/
def generateArchitectureDiagramM (jparse : Str → Option DiagramData)
    (now : Nat) (store : CacheStore Str) (repoName : Str) (tree : DTree)
    (outs : List FOut) : Str × CacheStore Str × Nat :=
  match cacheGet now store (generateKey repoName ("root".data) .diagram) with
  | (some d, store') =>
    if d = [] then
      archAttemptLoop jparse now store'
        (generateKey repoName ("root".data) .diagram) tree 3 outs 0
    else (d, store', 0)
  | (none, store') =>
    archAttemptLoop jparse now store'
      (generateKey repoName ("root".data) .diagram) tree 3 outs 0

/-- Embedding of `extractArchitectureData`: the free-text result is
re-thrown when degraded (content starting with the warning sign or
mentioning the rate limit); otherwise the cleanup chain plus the abstract
`JSON.parse` (`jparseArch`) either yields data or throws a parse error. -/
def extractArchitectureDataM (jparseArch : Str → Option ArchitectureData)
    (apiKey : Str) (outs : List FOut) : Except Str ArchitectureData :=
  match callGeminiAPIm apiKey outs with
  | .error e => .error e
  | .ok res =>
    if ("⚠️".data.isPrefixOf (trimStr res.content)
        || hasSub ("Rate Limit Exceeded".data) res.content) then
      .error res.content
    else
      match jparseArch (extractArchJsonStr res.content) with
      | some d => .ok d
      | none =>
        .error ("Failed to parse Architecture JSON. The AI might have returned invalid format.".data)

/-- Embedding of `ArchitectureGeneratorService.generateDiagram`: extraction
then conversion; no fallback, errors propagate to the caller. -/
def generateDiagramAG (jparseArch : Str → Option ArchitectureData)
    (apiKey : Str) (outs : List FOut) : Except Str Str :=
  match extractArchitectureDataM jparseArch apiKey outs with
  | .error e => .error e
  | .ok d => .ok (convertJsonToMermaidAG d)

/-- The empty browser storage, used by witnesses. -/
def emptyStore : CacheStore Str := fun _ => none

/-- A one-node directory tree, used by witnesses. -/
def demoTree : DTree := .node ("root".data) ("dir".data) []

/-! ## Theorems for claims C8 and C10 -/
/-- C8: for every key and value, `cacheService.get` returns the absent state
whenever the stored entry's age exceeds the 24-hour TTL and lazily evicts it,
and `cacheService.set` immediately followed by `cacheService.get` before the
TTL elapses returns the stored value. -/
theorem cacheService_ttl_roundtrip {α : Type} (store : CacheStore α) (k : Str)
    (v : α) (d : α) (ts now now2 : Nat)
    (hstored : store (cachePre ++ k) = some (.good d ts))
    (hexp : now - ts > cacheExpiryMs)
    (hfresh : now2 - now ≤ cacheExpiryMs) :
    ((cacheGet now store k).1 = none ∧ (cacheGet now store k).2 (cachePre ++ k) = none)
    ∧ (cacheGet now2 (cacheSet now store k v) k).1 = some v := by
  refine ⟨⟨?_, ?_⟩, ?_⟩
  · simp [cacheGet, hstored, hexp]
  · simp [cacheGet, hstored, hexp]
  · have hset : cacheSet now store k v (cachePre ++ k) = some (.good v now) := by
      simp [cacheSet]
    simp [cacheGet, hset, Nat.not_lt.2 hfresh]

/-- Witness for C8 at a concrete storage, key, value and clock values. -/
theorem cacheService_ttl_roundtrip_witness :
    ((cacheGet 86400002 demoStore "k".data).1 = none
      ∧ (cacheGet 86400002 demoStore "k".data).2 (cachePre ++ "k".data) = none)
    ∧ (cacheGet 86400003 (cacheSet 86400002 demoStore "k".data 7) "k".data).1 = some 7 :=
  cacheService_ttl_roundtrip demoStore "k".data 7 5 1 86400002 86400003
    (by decide) (by decide) (by decide)

/-- C10: every `cacheService` operation touches only storage keys carrying the
prefix `gemini_cache_`: `get` and `set` leave every non-prefixed entry
unchanged, and the value `get` returns depends only on the prefixed part of
the storage. -/
theorem cacheService_frame {α : Type} (now : Nat) (store store2 : CacheStore α)
    (key : Str) (v : α) (k' : Str)
    (hk : ¬ cachePre <+: k')
    (hagree : ∀ j, cachePre <+: j → store j = store2 j) :
    (cacheGet now store key).2 k' = store k'
    ∧ cacheSet now store key v k' = store k'
    ∧ (cacheGet now store key).1 = (cacheGet now store2 key).1 := by
  have hne : k' ≠ cachePre ++ key := by
    intro h
    exact hk (h ▸ List.prefix_append _ _)
  have hagreed := hagree (cachePre ++ key) (List.prefix_append _ _)
  refine ⟨?_, ?_, ?_⟩
  · unfold cacheGet
    cases h : store (cachePre ++ key) with
    | none => simp
    | some st =>
      cases st with
      | bad => simp
      | good d ts =>
        by_cases hexp : now - ts > cacheExpiryMs
        · simp [hexp, hne]
        · simp [hexp]
  · simp [cacheSet, hne]
  · unfold cacheGet
    rw [hagreed]
    cases h : store2 (cachePre ++ key) with
    | none => simp
    | some st =>
      cases st with
      | bad => simp
      | good d ts => by_cases hexp : now - ts > cacheExpiryMs <;> simp [hexp]

/-- Witness for C10 at a concrete storage and a concrete non-prefixed key. -/
theorem cacheService_frame_witness :
    (cacheGet 0 demoStore "k".data).2 "x".data = demoStore "x".data
    ∧ cacheSet 0 demoStore "k".data 7 "x".data = demoStore "x".data
    ∧ (cacheGet 0 demoStore "k".data).1 = (cacheGet 0 demoStore "k".data).1 :=
  cacheService_frame 0 demoStore demoStore "k".data 7 "x".data
    (by decide) (fun _ _ => rfl)

theorem countOcc_nil (m : Str) (hm : m ≠ []) : countOcc m [] = 0 := by
  unfold countOcc
  rcases m with _ | ⟨c, m'⟩
  · exact absurd rfl hm
  · simp

theorem countOcc_cons (m : Str) (c : Char) (s : Str) :
    countOcc m (c :: s) = (if m <+: c :: s then 1 else 0) + countOcc m s := by
  unfold countOcc
  rw [List.length_cons, List.range_succ_eq_map, List.filter_cons]
  have hcomp : ((fun p => decide (m <+: (c :: s).drop p)) ∘ Nat.succ)
      = fun p => decide (m <+: s.drop p) := by
    funext p
    simp [Function.comp, List.drop_succ_cons]
  rw [List.filter_map, hcomp]
  by_cases h : m <+: c :: s
  · rw [if_pos (by simpa using h)]
    simp [h, List.length_map]
    omega
  · rw [if_neg (by simpa using h)]
    simp [h, List.length_map]

theorem countOcc_eq_zero_of_not_infix (m s : Str) (h : ¬ m <:+: s) :
    countOcc m s = 0 := by
  unfold countOcc
  rw [List.length_eq_zero, List.filter_eq_nil_iff]
  intro p _
  simp only [decide_eq_true_eq]
  intro hp
  exact h (hp.isInfix.trans (List.drop_suffix p s).isInfix)

theorem not_infix_of_countOcc_eq_zero (m s : Str) (hm : m ≠ [])
    (h : countOcc m s = 0) : ¬ m <:+: s := by
  intro hinf
  rcases hinf with ⟨u, v, huv⟩
  have hp : m <+: s.drop u.length := by
    rw [← huv, List.append_assoc, List.drop_left]
    exact List.prefix_append _ _
  have hmemp : u.length ∈ List.range (s.length + 1) := by
    rw [List.mem_range]
    have := hp.length_le
    have hs : s.length = u.length + m.length + v.length := by
      rw [← huv]
      simp
      omega
    rcases m with _ | _
    · exact absurd rfl hm
    · simp at hs ⊢
      omega
  unfold countOcc at h
  rw [List.length_eq_zero, List.filter_eq_nil_iff] at h
  exact absurd (decide_eq_true hp) (Bool.not_eq_true _ ▸ h u.length hmemp)

theorem countOcc_eq_zero_of_length (m s : Str) (h : s.length < m.length) :
    countOcc m s = 0 := by
  apply countOcc_eq_zero_of_not_infix
  intro hinf
  exact absurd hinf.length_le (by omega)

theorem countOcc_zero_of_zero_infix (m s t : Str) (hm : m ≠ [])
    (h : countOcc m t = 0) (hsub : s <:+: t) : countOcc m s = 0 := by
  apply countOcc_eq_zero_of_not_infix
  intro hinf
  exact not_infix_of_countOcc_eq_zero m t hm h (hinf.trans hsub)

theorem prefix_append_iff_headNotMem (m : Str) (c : Char) (hc : c ∉ m) :
    ∀ (X Y : Str), Y.head? = some c → (m <+: X ++ Y ↔ m <+: X) := by
  induction m with
  | nil => intro X Y _; simp
  | cons a m' ih =>
    intro X Y hY
    rcases X with _ | ⟨b, X'⟩
    · rcases Y with _ | ⟨y, Y'⟩
      · simp at hY
      · simp only [List.head?_cons, Option.some_inj] at hY
        subst hY
        simp only [List.nil_append]
        constructor
        · intro hpre
          rcases (List.cons_prefix_cons.1 hpre) with ⟨hac, _⟩
          exact absurd (hac ▸ List.mem_cons_self a m') hc
        · intro hpre
          exact absurd hpre.length_le (by simp)
    · rw [List.cons_append, List.cons_prefix_cons, List.cons_prefix_cons]
      have hc' : c ∉ m' := fun hmem => hc (List.mem_cons_of_mem a hmem)
      rw [ih hc' X' Y hY]

theorem mem_of_getLast?_eq (X : Str) (c : Char) (h : X.getLast? = some c) :
    c ∈ X := by
  induction X with
  | nil => simp at h
  | cons b X' ih =>
    rcases X' with _ | ⟨b', X''⟩
    · simp only [List.getLast?_singleton, Option.some_inj] at h
      simp [h]
    · rw [List.getLast?_cons_cons] at h
      exact List.mem_cons_of_mem b (ih h)

theorem prefix_append_iff_lastNotMem (m : Str) (c : Char) (hc : c ∉ m)
    (X Y : Str) (hX : X.getLast? = some c) : m <+: X ++ Y ↔ m <+: X := by
  constructor
  · intro h
    by_cases hlen : m.length ≤ X.length
    · have hm_eq : m = (X ++ Y).take m.length := List.prefix_iff_eq_take.1 h
      have htake : (X ++ Y).take m.length = X.take m.length := by
        rw [List.take_append_eq_append_take]
        have h0 : m.length - X.length = 0 := by omega
        rw [h0, List.take_zero, List.append_nil]
      rw [hm_eq, htake]
      exact List.take_prefix _ _
    · exfalso
      have hXm : X <+: m :=
        List.prefix_of_prefix_length_le (List.prefix_append X Y) h (by omega)
      exact hc (hXm.subset (mem_of_getLast?_eq X c hX))
  · intro h
    exact h.trans (List.prefix_append X Y)

theorem countOcc_append_headNotMem (m : Str) (hm : m ≠ []) (c : Char)
    (hc : c ∉ m) (X Y : Str) (hY : Y.head? = some c) :
    countOcc m (X ++ Y) = countOcc m X + countOcc m Y := by
  induction X with
  | nil => rw [List.nil_append, countOcc_nil m hm, Nat.zero_add]
  | cons b X' ih =>
    rw [List.cons_append, countOcc_cons, countOcc_cons, ih]
    have hiff : m <+: b :: (X' ++ Y) ↔ m <+: b :: X' := by
      have h2 := prefix_append_iff_headNotMem m c hc (b :: X') Y hY
      rwa [List.cons_append] at h2
    by_cases hp : m <+: b :: X'
    · rw [if_pos hp, if_pos (hiff.2 hp)]
      omega
    · rw [if_neg hp, if_neg (fun hcon => hp (hiff.1 hcon))]
      omega

theorem countOcc_append_lastNotMem (m : Str) (hm : m ≠ []) (c : Char)
    (hc : c ∉ m) (X Y : Str) (hX : X.getLast? = some c) :
    countOcc m (X ++ Y) = countOcc m X + countOcc m Y := by
  induction X with
  | nil => simp at hX
  | cons b X' ih =>
    rcases X' with _ | ⟨b', X''⟩
    · simp only [List.getLast?_singleton, Option.some_inj] at hX
      subst hX
      have hhead : ∀ (z : Str), ¬ m <+: b :: z := by
        intro z hpre
        rcases m with _ | ⟨a, m'⟩
        · exact hm rfl
        · rcases (List.cons_prefix_cons.1 hpre) with ⟨hab, _⟩
          exact hc (hab ▸ List.mem_cons_self a m')
      rw [List.cons_append, List.nil_append, countOcc_cons, countOcc_cons,
        countOcc_nil m hm, if_neg (hhead Y), if_neg (hhead [])]
    · have hX' : (b' :: X'').getLast? = some c := by
        rwa [List.getLast?_cons_cons] at hX
      have ih' := ih hX'
      rw [List.cons_append, countOcc_cons, countOcc_cons, ih']
      have hiff : m <+: b :: (b' :: X'' ++ Y) ↔ m <+: b :: b' :: X'' := by
        have h2 := prefix_append_iff_lastNotMem m c hc (b :: b' :: X'') Y
          (by rwa [List.getLast?_cons_cons])
        rwa [List.cons_append] at h2
      by_cases hp : m <+: b :: b' :: X''
      · rw [if_pos hp, if_pos (hiff.2 hp)]
        omega
      · rw [if_neg hp, if_neg (fun hcon => hp (hiff.1 hcon))]
        omega

theorem countOcc_self (m : Str) (hm : m ≠ []) : countOcc m m = 1 := by
  rcases m with _ | ⟨a, m'⟩
  · exact absurd rfl hm
  · rw [countOcc_cons, if_pos (List.prefix_refl _),
      countOcc_eq_zero_of_length _ _ (by simp)]

theorem dropWhile_nil_of_wsOnly (b : Str) (h : wsOnly b) :
    b.dropWhile isWS = [] := List.dropWhile_eq_nil_iff.2 h

theorem dropWhile_ws_append_wsOnly (a s : Str) (h : wsOnly a) :
    (a ++ s).dropWhile isWS = s.dropWhile isWS := by
  rw [List.dropWhile_append, dropWhile_nil_of_wsOnly a h]
  rfl

theorem trim_ws_left (a s : Str) (h : wsOnly a) :
    trimStr (a ++ s) = trimStr s := by
  unfold trimStr
  rw [dropWhile_ws_append_wsOnly a s h]

theorem trim_ws_right (s b : Str) (h : wsOnly b) :
    trimStr (s ++ b) = trimStr s := by
  unfold trimStr
  rw [List.dropWhile_append]
  by_cases he : (s.dropWhile isWS).isEmpty
  · rw [if_pos he, dropWhile_nil_of_wsOnly b h]
    have hs : s.dropWhile isWS = [] := by
      cases h' : s.dropWhile isWS
      · rfl
      · rw [h'] at he
        simp at he
    rw [hs]
  · rw [if_neg he, List.reverse_append]
    rw [dropWhile_ws_append_wsOnly _ _ (fun c hc => h c (List.mem_reverse.1 hc))]

theorem dropWhile_ws_idem (l : Str) :
    (l.dropWhile isWS).dropWhile isWS = l.dropWhile isWS := by
  induction l with
  | nil => rfl
  | cons a l' ih =>
    rw [List.dropWhile_cons]
    by_cases h : isWS a = true
    · rw [if_pos h]
      exact ih
    · rw [if_neg h, List.dropWhile_cons, if_neg h]

theorem trim_dropWhile (l : Str) : trimStr (l.dropWhile isWS) = trimStr l := by
  unfold trimStr
  rw [dropWhile_ws_idem]

theorem trim_nil_of_dropWhile_nil (l : Str) (h : l.dropWhile isWS = []) :
    trimStr l = [] := by
  unfold trimStr
  rw [h]
  rfl

theorem mem_of_mem_trim (x : Char) (l : Str) (h : x ∈ trimStr l) : x ∈ l := by
  unfold trimStr at h
  rw [List.mem_reverse] at h
  have h2 := (List.dropWhile_suffix isWS).subset h
  rw [List.mem_reverse] at h2
  exact (List.dropWhile_suffix isWS).subset h2

theorem removeAllFence_of_no_backtick (w : Str) (h : '`' ∉ w) :
    removeAllFence w = w := by
  induction w with
  | nil => rw [removeAllFence]
  | cons c cs ih =>
    rw [removeAllFence]
    have hc : ¬ ("```".data.isPrefixOf (c :: cs) = true) := by
      intro hp
      rw [List.isPrefixOf_iff_prefix] at hp
      rcases List.cons_prefix_cons.1 hp with ⟨hcc, _⟩
      exact h (hcc ▸ List.mem_cons_self _ _)
    rw [if_neg hc, ih (fun hm => h (List.mem_cons_of_mem c hm))]

theorem fenceTailIdx_append (u : Str) (h : '`' ∉ u) :
    fenceTailIdx (u ++ "\n```".data) = some (u.length + 1) := by
  induction u with
  | nil => decide
  | cons a u' ih =>
    rw [List.cons_append, fenceTailIdx]
    have hpre : "```".data.isPrefixOf (a :: (u' ++ "\n```".data)) = false := by
      rw [Bool.eq_false_iff]
      intro hp
      rw [List.isPrefixOf_iff_prefix] at hp
      rcases List.cons_prefix_cons.1 hp with ⟨hcc, _⟩
      exact h (hcc ▸ List.mem_cons_self _ _)
    rw [hpre, Bool.false_and, if_neg (by simp)]
    rw [ih (fun hm => h (List.mem_cons_of_mem a hm))]
    simp [List.length_cons]

theorem subIdx_append_bt (x : Str) (h : '`' ∉ x) :
    subIdx "```".data (x ++ "```".data) = some x.length := by
  induction x with
  | nil => decide
  | cons a x' ih =>
    rw [List.cons_append, subIdx]
    have hpre : "```".data.isPrefixOf (a :: (x' ++ "```".data)) = false := by
      rw [Bool.eq_false_iff]
      intro hp
      rw [List.isPrefixOf_iff_prefix] at hp
      rcases List.cons_prefix_cons.1 hp with ⟨hcc, _⟩
      exact h (hcc ▸ List.mem_cons_self _ _)
    rw [hpre, if_neg (by simp)]
    rw [ih (fun hm => h (List.mem_cons_of_mem a hm))]
    simp [List.length_cons]

/-- C6 (amended): when the payload is wrapped in a fenced block carrying the
`json` language tag, both extraction chains strip the fence and reduce the
text to the trimmed inner payload, so parsing the cleaned text coincides with
parsing the inner text directly.  (The untagged fence is not handled; see the
counterexample.) -/
theorem extractJson_strips_tagged_fence (t : Str) (hbt : '`' ∉ t) :
    genArchJsonStr ("```json\n".data ++ t ++ "\n```".data) = trimStr t
    ∧ extractArchJsonStr ("```json\n".data ++ t ++ "\n```".data) = trimStr t := by
  have hshape : "```json\n".data ++ t ++ "\n```".data
      = "```json".data ++ ('\n' :: (t ++ "\n```".data)) := by
    rw [List.append_assoc]
    rfl
  have hdrop : ("```json\n".data ++ t ++ "\n```".data).drop 7
      = '\n' :: (t ++ "\n```".data) := by
    rw [hshape]
    have h7 : (7 : Nat) = ("```json".data).length := rfl
    rw [h7, List.drop_left]
  have hmain : ('\n' :: (t ++ "\n```".data)).dropWhile isWS
      = (t ++ "\n```".data).dropWhile isWS := by
    rw [List.dropWhile_cons, if_pos (by decide : isWS '\n' = true)]
  constructor
  · unfold genArchJsonStr stripJsonTagFence
    have hpre : "```json".data.isPrefixOf ("```json\n".data ++ t ++ "\n```".data)
        = true := by
      rw [List.isPrefixOf_iff_prefix, hshape]
      exact List.prefix_append _ _
    rw [if_pos hpre, hdrop, hmain, List.dropWhile_append]
    by_cases he : (t.dropWhile isWS).isEmpty
    · rw [if_pos he]
      have h1 : ("\n```".data).dropWhile isWS = "```".data := by decide
      have h2 : stripTrailingFence ("```".data) = [] := by decide
      rw [h1, h2]
      have ht : t.dropWhile isWS = [] := by
        cases h' : t.dropWhile isWS
        · rfl
        · rw [h'] at he
          simp at he
      rw [trim_nil_of_dropWhile_nil t ht]
      rfl
    · rw [if_neg he]
      have hbt' : '`' ∉ t.dropWhile isWS :=
        fun hm => hbt ((List.dropWhile_suffix isWS).subset hm)
      unfold stripTrailingFence
      rw [fenceTailIdx_append _ hbt']
      have htake : (t.dropWhile isWS ++ "\n```".data).take ((t.dropWhile isWS).length + 1)
          = t.dropWhile isWS ++ ['\n'] := by
        rw [List.take_append_eq_append_take, List.take_of_length_le (by omega)]
        have h1 : (t.dropWhile isWS).length + 1 - (t.dropWhile isWS).length = 1 := by
          omega
        rw [h1]
        rfl
      show trimStr (List.take ((List.dropWhile isWS t).length + 1)
        (List.dropWhile isWS t ++ "\n```".data)) = trimStr t
      rw [htake, trim_ws_right _ _ (by decide : wsOnly ['\n']), trim_dropWhile]
  · unfold extractArchJsonStr stripUptoJsonTag
    have hs0 : subIdx "```json".data ("```json\n".data ++ t ++ "\n```".data)
        = some 0 := by
      rw [hshape]
      show subIdx "```json".data ('`' :: ("``json".data ++ ('\n' :: (t ++ "\n```".data)))) = some 0
      rw [subIdx]
      have hpre : "```json".data.isPrefixOf
          ('`' :: ("``json".data ++ ('\n' :: (t ++ "\n```".data)))) = true := by
        rw [List.isPrefixOf_iff_prefix]
        show "```json".data <+: "```json".data ++ ('\n' :: (t ++ "\n```".data))
        exact List.prefix_append _ _
      rw [if_pos hpre]
    rw [hs0]
    show removeAllFence (trimStr (stripFromFirstFence
      (List.drop 7 ("```json\n".data ++ t ++ "\n```".data)))) = trimStr t
    rw [hdrop]
    unfold stripFromFirstFence
    have hx : ('\n' :: (t ++ ['\n'])) ++ "```".data = '\n' :: (t ++ "\n```".data) := by
      rw [List.cons_append, List.append_assoc]
      rfl
    rw [← hx]
    have hbtx : '`' ∉ '\n' :: (t ++ ['\n']) := by
      intro hm
      rcases List.mem_cons.1 hm with h1 | h1
      · exact absurd h1.symm (by decide)
      · rcases List.mem_append.1 h1 with h2 | h2
        · exact hbt h2
        · exact absurd (List.mem_singleton.1 h2).symm (by decide)
    rw [subIdx_append_bt _ hbtx]
    show removeAllFence (trimStr (List.take ('\n' :: (t ++ ['\n'])).length
      ('\n' :: (t ++ ['\n']) ++ "```".data))) = trimStr t
    rw [List.take_left]
    have htr : trimStr ('\n' :: (t ++ ['\n'])) = trimStr t := by
      rw [show ('\n' :: (t ++ ['\n'])) = ['\n'] ++ (t ++ ['\n']) from rfl]
      rw [trim_ws_left _ _ (by decide : wsOnly ['\n'])]
      rw [trim_ws_right _ _ (by decide : wsOnly ['\n'])]
    rw [htr]
    exact removeAllFence_of_no_backtick _
      (fun hm => hbt (mem_of_mem_trim _ _ hm))

/-- Witness for the amended C6 at a concrete JSON payload. -/
theorem extractJson_strips_tagged_fence_witness :
    genArchJsonStr ("```json\n".data ++ innerJson ++ "\n```".data) = trimStr innerJson
    ∧ extractArchJsonStr ("```json\n".data ++ innerJson ++ "\n```".data)
      = trimStr innerJson :=
  extractJson_strips_tagged_fence innerJson (by decide)

/-- C6 counterexample: on a fenced block with no language tag, the
`generateArchitectureDiagram` chain leaves the opening fence in place (the
cleaned text still starts with three backticks and differs from the inner
text), and the `extractArchitectureData` chain deletes the whole payload, so
neither returns data equal to parsing the inner text. -/
theorem extractJson_bare_fence_counterexample :
    genArchJsonStr bareFenced ≠ innerJson
    ∧ "```".data <+: genArchJsonStr bareFenced
    ∧ extractArchJsonStr bareFenced = []
    ∧ innerJson ≠ [] := by
  refine ⟨by decide, by decide, ?_, by decide⟩
  unfold extractArchJsonStr
  have h1 : trimStr (stripFromFirstFence (stripUptoJsonTag bareFenced)) = [] := by
    decide
  rw [h1, removeAllFence]

theorem not_prefix_cons_of_not_mem (m : Str) (hm : m ≠ []) (c : Char)
    (hc : c ∉ m) (z : Str) : ¬ m <+: c :: z := by
  intro hp
  rcases m with _ | ⟨a, m'⟩
  · exact hm rfl
  · rcases List.cons_prefix_cons.1 hp with ⟨hac, _⟩
    exact hc (hac ▸ List.mem_cons_self _ _)

theorem mem_of_head?_eq (m : Str) (ch : Char) (h : m.head? = some ch) :
    ch ∈ m := by
  rcases m with _ | ⟨a, m'⟩
  · simp at h
  · simp only [List.head?_cons, Option.some_inj] at h
    exact h ▸ List.mem_cons_self a m'

theorem toDigitsCore_digits : ∀ (fuel n : Nat) (ds : Str),
    (∀ ch ∈ ds, ch.isDigit = true) →
    ∀ ch ∈ Nat.toDigitsCore 10 fuel n ds, ch.isDigit = true := by
  intro fuel
  induction fuel with
  | zero =>
    intro n ds hds ch hch
    rw [Nat.toDigitsCore] at hch
    exact hds ch hch
  | succ f ih =>
    intro n ds hds ch hch
    rw [Nat.toDigitsCore] at hch
    have hdig : ∀ m : Nat, m < 10 → (Nat.digitChar m).isDigit = true := by decide
    have hd : (Nat.digitChar (n % 10)).isDigit = true :=
      hdig _ (Nat.mod_lt _ (by omega))
    have hds' : ∀ ch2 ∈ (Nat.digitChar (n % 10)) :: ds, ch2.isDigit = true := by
      intro ch2 hch2
      rcases List.mem_cons.1 hch2 with h | h
      · rw [h]
        exact hd
      · exact hds ch2 h
    by_cases h0 : n / 10 = 0
    · rw [if_pos h0] at hch
      exact hds' ch hch
    · rw [if_neg h0] at hch
      exact ih (n / 10) _ hds' ch hch

theorem numStr_digits (n : Nat) : ∀ ch ∈ numStr n, ch.isDigit = true := by
  intro ch hch
  rw [numStr, Nat.toDigits] at hch
  exact toDigitsCore_digits (n + 1) n [] (by simp) ch hch

theorem fileMarker_head (n : Nat) :
    fileMarker n = '.' :: (".. [middle section truncated - ".data ++ numStr n
      ++ " characters omitted] ...".data) := rfl

theorem fileMarker_ne_nil (n : Nat) : fileMarker n ≠ [] := by
  rw [fileMarker_head]
  exact List.cons_ne_nil _ _

theorem newline_not_mem_fileMarker (n : Nat) : '\n' ∉ fileMarker n := by
  intro h
  unfold fileMarker at h
  rcases List.mem_append.1 h with h1 | h1
  · rcases List.mem_append.1 h1 with h2 | h2
    · exact absurd h2 (by decide)
    · exact absurd (numStr_digits n _ h2) (by decide)
  · exact absurd h1 (by decide)

theorem countOcc_replicate_zero (m : Str) (a ch : Char) (n : Nat)
    (hhead : m.head? = some ch) (hne : ch ≠ a) :
    countOcc m (List.replicate n a) = 0 := by
  apply countOcc_eq_zero_of_not_infix
  intro hinf
  have hmem : ch ∈ List.replicate n a := hinf.subset (mem_of_head?_eq m ch hhead)
  rw [List.mem_replicate] at hmem
  exact hne hmem.2

theorem countOcc_take_zero (m c : Str) (hm : m ≠ []) (h : countOcc m c = 0)
    (k : Nat) : countOcc m (c.take k) = 0 :=
  countOcc_zero_of_zero_infix m _ c hm h (List.take_prefix k c).isInfix

theorem countOcc_drop_zero (m c : Str) (hm : m ≠ []) (h : countOcc m c = 0)
    (k : Nat) : countOcc m (c.drop k) = 0 :=
  countOcc_zero_of_zero_infix m _ c hm h (List.drop_suffix k c).isInfix

theorem countOcc_trunc (mk s1 s2 : Str) (hm : mk ≠ []) (hnl : '\n' ∉ mk)
    (h1 : countOcc mk s1 = 0) (h2 : countOcc mk s2 = 0) :
    countOcc mk (s1 ++ "\n\n".data ++ mk ++ "\n\n".data ++ s2) = 1 := by
  have hassoc : s1 ++ "\n\n".data ++ mk ++ "\n\n".data ++ s2
      = s1 ++ ('\n' :: '\n' :: (mk ++ ('\n' :: '\n' :: s2))) := by
    simp only [List.append_assoc]
    rfl
  rw [hassoc]
  rw [countOcc_append_headNotMem mk hm '\n' hnl s1
    ('\n' :: '\n' :: (mk ++ ('\n' :: '\n' :: s2))) rfl]
  rw [countOcc_cons, countOcc_cons,
    if_neg (not_prefix_cons_of_not_mem mk hm '\n' hnl _),
    if_neg (not_prefix_cons_of_not_mem mk hm '\n' hnl _)]
  rw [countOcc_append_headNotMem mk hm '\n' hnl mk ('\n' :: '\n' :: s2) rfl]
  rw [countOcc_cons, countOcc_cons,
    if_neg (not_prefix_cons_of_not_mem mk hm '\n' hnl _),
    if_neg (not_prefix_cons_of_not_mem mk hm '\n' hnl _)]
  rw [countOcc_self mk hm, h1, h2]

theorem segAfile_getLast (fp repo c : Str) :
    (segAfile fp repo c).getLast? = some '\n' := by
  unfold segAfile
  rw [List.getLast?_append]
  rfl

theorem segBfile_head (fp c : Str) : (segBfile fp c).head? = some '\n' := rfl

/-- C7 (amended): both size-budgeted prompt builders keep under-budget content
verbatim with no inserted marker, and over budget they keep the literal first
and last half-budget slices around exactly one marker; the file-explanation
marker notes the number of omitted characters, while the question-answering
marker (`qaMarker`) contains no digits, so it does not note the count. -/
theorem promptBuilders_truncation (fp repo q c : Str) :
    (c.length ≤ 15000 → contentToSendFile c = c ∧ c <:+: promptFile fp repo c)
    ∧ (c.length > 15000 →
        c.take 7500 <+: contentToSendFile c
        ∧ c.drop (c.length - 7500) <:+ contentToSendFile c
        ∧ c.take 7500 <:+: promptFile fp repo c
        ∧ c.drop (c.length - 7500) <:+: promptFile fp repo c
        ∧ (countOcc (fileMarker (c.length - 15000)) c = 0 →
            countOcc (fileMarker (c.length - 15000)) (contentToSendFile c) = 1))
    ∧ (c.length > 15000 →
        countOcc (fileMarker (c.length - 15000)) c = 0 →
        countOcc (fileMarker (c.length - 15000)) (segAfile fp repo c) = 0 →
        countOcc (fileMarker (c.length - 15000)) (segBfile fp c) = 0 →
        countOcc (fileMarker (c.length - 15000)) (promptFile fp repo c) = 1)
    ∧ (c.length ≤ 12000 → contentToSendQA c = c ∧ c <:+: promptQA fp repo q c)
    ∧ (c.length > 12000 →
        c.take 6000 <+: contentToSendQA c
        ∧ c.drop (c.length - 6000) <:+ contentToSendQA c
        ∧ (countOcc qaMarker c = 0 → countOcc qaMarker (contentToSendQA c) = 1))
    ∧ (∀ ch ∈ qaMarker, ch.isDigit = false) := by
  have hneF : fileMarker (c.length - 15000) ≠ [] := fileMarker_ne_nil _
  have hnlF : '\n' ∉ fileMarker (c.length - 15000) := newline_not_mem_fileMarker _
  have hneQ : qaMarker ≠ [] := by decide
  have hnlQ : '\n' ∉ qaMarker := by decide
  refine ⟨?_, ?_, ?_, ?_, ?_, by decide⟩
  · intro h
    have he : contentToSendFile c = c := by
      unfold contentToSendFile
      rw [if_neg (by omega)]
    refine ⟨he, ?_⟩
    unfold promptFile
    rw [he]
    exact List.infix_append _ _ _
  · intro h
    have hcts : contentToSendFile c
        = c.take 7500 ++ "\n\n".data ++ fileMarker (c.length - 15000)
          ++ "\n\n".data ++ c.drop (c.length - 7500) := by
      unfold contentToSendFile
      rw [if_pos h]
    have htakep : c.take 7500 <+: contentToSendFile c := by
      rw [hcts]
      have hp := List.prefix_append (c.take 7500)
        ("\n\n".data ++ (fileMarker (c.length - 15000)
          ++ ("\n\n".data ++ c.drop (c.length - 7500))))
      simpa only [List.append_assoc] using hp
    have hdrops : c.drop (c.length - 7500) <:+ contentToSendFile c := by
      rw [hcts]
      exact List.suffix_append _ _
    have hctsinf : contentToSendFile c <:+: promptFile fp repo c := by
      unfold promptFile
      exact List.infix_append _ _ _
    refine ⟨htakep, hdrops, htakep.isInfix.trans hctsinf,
      hdrops.isInfix.trans hctsinf, ?_⟩
    intro hc0
    rw [hcts]
    exact countOcc_trunc _ _ _ hneF hnlF
      (countOcc_take_zero _ _ hneF hc0 _) (countOcc_drop_zero _ _ hneF hc0 _)
  · intro h hc0 hA0 hB0
    have hcts1 : countOcc (fileMarker (c.length - 15000)) (contentToSendFile c) = 1 := by
      have hcts : contentToSendFile c
          = c.take 7500 ++ "\n\n".data ++ fileMarker (c.length - 15000)
            ++ "\n\n".data ++ c.drop (c.length - 7500) := by
        unfold contentToSendFile
        rw [if_pos h]
      rw [hcts]
      exact countOcc_trunc _ _ _ hneF hnlF
        (countOcc_take_zero _ _ hneF hc0 _) (countOcc_drop_zero _ _ hneF hc0 _)
    unfold promptFile
    rw [List.append_assoc]
    rw [countOcc_append_lastNotMem _ hneF '\n' hnlF _ _ (segAfile_getLast fp repo c)]
    rw [countOcc_append_headNotMem _ hneF '\n' hnlF _ _ (segBfile_head fp c)]
    rw [hA0, hB0, hcts1]
  · intro h
    have he : contentToSendQA c = c := by
      unfold contentToSendQA
      rw [if_neg (by omega)]
    refine ⟨he, ?_⟩
    unfold promptQA
    rw [he]
    exact List.infix_append _ _ _
  · intro h
    have hcts : contentToSendQA c
        = c.take 6000 ++ "\n\n".data ++ qaMarker ++ "\n\n".data
          ++ c.drop (c.length - 6000) := by
      unfold contentToSendQA
      rw [if_pos h]
    refine ⟨?_, ?_, ?_⟩
    · rw [hcts]
      have hp := List.prefix_append (c.take 6000)
        ("\n\n".data ++ (qaMarker ++ ("\n\n".data ++ c.drop (c.length - 6000))))
      simpa only [List.append_assoc] using hp
    · rw [hcts]
      exact List.suffix_append _ _
    · intro hc0
      rw [hcts]
      exact countOcc_trunc _ _ _ hneQ hnlQ
        (countOcc_take_zero _ _ hneQ hc0 _) (countOcc_drop_zero _ _ hneQ hc0 _)

theorem fileMarker_head? (n : Nat) : (fileMarker n).head? = some '.' := rfl

theorem countOcc_eq_zero_of_mem_not (m s : Str) (ch : Char) (hch : ch ∈ m)
    (hs : ch ∉ s) : countOcc m s = 0 := by
  apply countOcc_eq_zero_of_not_infix
  intro hinf
  exact hs (hinf.subset hch)

theorem bracket_mem_fileMarker (n : Nat) : '[' ∈ fileMarker n := by
  unfold fileMarker
  exact List.mem_append.2 (Or.inl (List.mem_append.2 (Or.inl (by decide))))

/-- Witness for the amended C7. -/
theorem promptBuilders_truncation_witness :
    contentToSendFile ("hi".data) = "hi".data
    ∧ countOcc (fileMarker (bigA.length - 15000)) (contentToSendFile bigA) = 1
    ∧ countOcc (fileMarker (bigA.length - 15000)) (promptFile "f".data "r".data bigA) = 1
    ∧ countOcc qaMarker (contentToSendQA bigB) = 1 := by
  have hA : bigA.length > 15000 := by
    rw [bigA, List.length_replicate]
    omega
  have hB : bigB.length > 12000 := by
    rw [bigB, List.length_replicate]
    omega
  have h0 : countOcc (fileMarker (bigA.length - 15000)) bigA = 0 :=
    countOcc_replicate_zero _ 'a' '.' 15001 (fileMarker_head? _) (by decide)
  have hnotA : '[' ∉ segAfile "f".data "r".data bigA := by
    rw [segAfile, truncNoteFile, if_pos hA]
    intro hmem
    simp only [List.mem_append] at hmem
    rcases hmem with ((((((((((h | h) | h) | h) | h) | h) | h) | h) | h) | h) | h)
    · exact absurd h (by decide)
    · exact absurd h (by decide)
    · exact absurd h (by decide)
    · exact absurd h (by decide)
    · exact absurd h (by decide)
    · exact absurd (numStr_digits _ '[' h) (by decide)
    · exact absurd h (by decide)
    · exact absurd (numStr_digits _ '[' h) (by decide)
    · exact absurd h (by decide)
    · exact absurd h (by decide)
    · exact absurd h (by decide)
  have hnotB : '[' ∉ segBfile "f".data bigA := by
    rw [segBfile, portionNote, if_pos hA]
    intro hmem
    simp only [List.mem_append] at hmem
    rcases hmem with (((h | h) | h) | h)
    · exact absurd h (by decide)
    · exact absurd h (by decide)
    · exact absurd h (by decide)
    · exact absurd h (by decide)
  have hA0 : countOcc (fileMarker (bigA.length - 15000))
      (segAfile "f".data "r".data bigA) = 0 :=
    countOcc_eq_zero_of_mem_not _ _ '[' (bracket_mem_fileMarker _) hnotA
  have hB0 : countOcc (fileMarker (bigA.length - 15000))
      (segBfile "f".data bigA) = 0 :=
    countOcc_eq_zero_of_mem_not _ _ '[' (bracket_mem_fileMarker _) hnotB
  have hq0 : countOcc qaMarker bigB = 0 :=
    countOcc_replicate_zero _ 'b' '.' 12001 rfl (by decide)
  exact ⟨((promptBuilders_truncation "f".data "r".data "q".data ("hi".data)).1 (by decide)).1,
    ((promptBuilders_truncation "f".data "r".data "q".data bigA).2.1 hA).2.2.2.2 h0,
    (promptBuilders_truncation "f".data "r".data "q".data bigA).2.2.1 hA h0 hA0 hB0,
    (((promptBuilders_truncation "f".data "r".data "q".data bigB).2.2.2.2.1 hB).2.2 hq0)⟩

/-- C7 counterexample. -/
theorem qaPrompt_marker_lacks_count :
    bigB.length > 12000
    ∧ (promptQA "f".data "r".data "q".data bigB).all (fun ch => !ch.isDigit) = true := by
  have hB : bigB.length > 12000 := by
    rw [bigB, List.length_replicate]
    omega
  have hsegA : ∀ x ∈ segAqa "f".data "r".data "q".data bigB, (!x.isDigit) = true := by
    rw [segAqa, qaPortion, if_pos hB]
    decide
  refine ⟨hB, ?_⟩
  rw [List.all_eq_true]
  intro ch hch
  have hb : ∀ x ∈ bigB, x = 'b' := by
    intro x hx
    rw [bigB, List.mem_replicate] at hx
    exact hx.2
  unfold promptQA at hch
  rcases List.mem_append.1 hch with h1 | h1
  · rcases List.mem_append.1 h1 with h2 | h2
    · exact hsegA ch h2
    · rw [contentToSendQA, if_pos hB] at h2
      rcases List.mem_append.1 h2 with h3 | h3
      · rcases List.mem_append.1 h3 with h4 | h4
        · rcases List.mem_append.1 h4 with h5 | h5
          · rcases List.mem_append.1 h5 with h6 | h6
            · rw [hb ch ((List.take_prefix 6000 bigB).subset h6)]
              decide
            · have hnl2 : ∀ x ∈ "\n\n".data, (!x.isDigit) = true := by decide
              exact hnl2 ch h6
          · have hqm : ∀ x ∈ qaMarker, (!x.isDigit) = true := by decide
            exact hqm ch h5
        · have hnl2 : ∀ x ∈ "\n\n".data, (!x.isDigit) = true := by decide
          exact hnl2 ch h4
      · rw [hb ch ((List.drop_suffix (bigB.length - 6000) bigB).subset h3)]
        decide
  · have hsb : ∀ x ∈ segBqa, (!x.isDigit) = true := by decide
    exact hsb ch h1

/-! ## Theorems for claim C1 -/
/-- C1 counterexample: on the claim's own input (components `a`, `b`, one
relationship from `a` to the missing id `c`), the `ArchitectureData`-based
synthesizer of `architectureGenerator.ts` emits one edge declaration (the
dangling edge is rendered, not dropped) and three node declarations (the
`AI_GEN` status node joins `a` and `b`), not zero edges and two nodes. -/
theorem agSynth_renders_dangling_edge :
    countEdgeLines (convertJsonToMermaidAG cexData) = 1
    ∧ countNodeLines (convertJsonToMermaidAG cexData) = 3 := by
  refine ⟨by decide, by decide⟩

/-- C1 (amended): only the modules-based synthesizer of `geminiApi.ts` drops
relationships with a dangling endpoint: every edge it emits has both
sanitized endpoints among the declared node ids, and on the scenario input
(components `a`, `b`, relationship `a -> c`) its markup holds exactly two
node declarations and zero edge declarations. -/
theorem gaSynth_skips_dangling_edges (d : DiagramData) (f t : Str)
    (h : (f, t) ∈ gaEdgePairs d) :
    (f ∈ gaNodeIds d ∧ t ∈ gaNodeIds d)
    ∧ countEdgeLines (convertJsonToMermaidGA gaScenario) = 0
    ∧ countNodeLines (convertJsonToMermaidGA gaScenario) = 2 := by
  refine ⟨?_, by decide, by decide⟩
  have hmem := List.mem_filter.1 h
  rcases hmem with ⟨_, hcond⟩
  rw [Bool.and_eq_true] at hcond
  exact ⟨List.elem_iff.1 hcond.1, List.elem_iff.1 hcond.2⟩

/-- Witness for the amended C1: a concrete valid edge of `gaScenario2`. -/
theorem gaSynth_skips_dangling_edges_witness :
    (("a".data, "b".data) ∈ gaEdgePairs gaScenario2)
    ∧ (("a".data ∈ gaNodeIds gaScenario2 ∧ "b".data ∈ gaNodeIds gaScenario2)
      ∧ countEdgeLines (convertJsonToMermaidGA gaScenario) = 0
      ∧ countNodeLines (convertJsonToMermaidGA gaScenario) = 2) :=
  ⟨by decide, gaSynth_skips_dangling_edges gaScenario2 "a".data "b".data (by decide)⟩

theorem schedStart_step (st d : Nat) :
    schedStart ⟨st + d, st⟩ = st + max d MIN_INTERVAL := by
  unfold schedStart
  by_cases h : st + d - st < MIN_INTERVAL
  · rw [if_pos h]
    have hd : d ≤ MIN_INTERVAL := by omega
    rw [Nat.max_eq_right hd]
  · rw [if_neg h]
    have hd : MIN_INTERVAL ≤ d := by omega
    rw [Nat.max_eq_left hd]

theorem runSched_length (s : SchedState) (ops : List QOp) :
    (runSched s ops).length = ops.length := by
  induction ops generalizing s with
  | nil => rfl
  | cons op rest ih =>
    rw [runSched, List.length_cons, List.length_cons, ih]

theorem runSched_chain (s : SchedState) (ops : List QOp) :
    List.Chain' (fun a b => a + MIN_INTERVAL ≤ b) (runSched s ops) := by
  induction ops generalizing s with
  | nil => simp [runSched]
  | cons op rest ih =>
    rcases rest with _ | ⟨op2, rest2⟩
    · simp [runSched]
    · rw [runSched, runSched, List.chain'_cons]
      constructor
      · show schedStart s + MIN_INTERVAL ≤ schedStart ⟨schedStart s + op.duration, schedStart s⟩
        rw [schedStart_step]
        have := Nat.le_max_right op.duration MIN_INTERVAL
        omega
      · have h2 := ih (schedStep s op).2
        rw [runSched] at h2
        exact h2

theorem runSched_serial (s : SchedState) (ops : List QOp) :
    List.Chain' (fun p q => p.2 + p.1.duration ≤ q.2) (ops.zip (runSched s ops)) := by
  induction ops generalizing s with
  | nil => simp [runSched]
  | cons op rest ih =>
    rcases rest with _ | ⟨op2, rest2⟩
    · simp [runSched]
    · rw [runSched, runSched, List.zip_cons_cons, List.zip_cons_cons,
        List.chain'_cons]
      constructor
      · show schedStart s + op.duration
          ≤ schedStart ⟨schedStart s + op.duration, schedStart s⟩
        rw [schedStart_step]
        have := Nat.le_max_left op.duration MIN_INTERVAL
        omega
      · have h2 := ih (schedStep s op).2
        rw [runSched, List.zip_cons_cons] at h2
        exact h2

/-- C2: operations submitted to `RateLimiter.schedule` all run (a failing
operation does not stall the queue: the start-time list has one entry per
operation, whatever each `ok` flag is), they run serially in submission
order (each begins no earlier than the settle time of its predecessor), and
consecutive start times are at least `MIN_INTERVAL` = 3500 ms apart. -/
theorem rateLimiter_schedule_serializes (s : SchedState) (ops : List QOp) :
    (runSched s ops).length = ops.length
    ∧ List.Chain' (fun a b => a + MIN_INTERVAL ≤ b) (runSched s ops)
    ∧ List.Chain' (fun p q => p.2 + p.1.duration ≤ q.2) (ops.zip (runSched s ops)) :=
  ⟨runSched_length s ops, runSched_chain s ops, runSched_serial s ops⟩

theorem runModel_all_fail (model : Str) :
    ∀ (k i : Nat) (outs : List FOut) (t : Nat) (le : LastErr),
    (∀ fo ∈ outs, noTextOut fo = true) →
    (runModel model k i outs t le).txt = none
    ∧ (runModel model k i outs t le).rem <:+ outs := by
  intro k
  induction k with
  | zero =>
    intro i outs t le _
    exact ⟨rfl, List.suffix_refl outs⟩
  | succ k' ih =>
    intro i outs t le hfail
    rcases outs with _ | ⟨fo1, rest⟩
    · simp only [runModel, List.headD_nil, List.tail_nil]
      by_cases hk0 : k' = 0
      · rw [if_pos hk0]
        exact ⟨by first | rfl | trivial, List.suffix_refl _⟩
      · rw [if_neg hk0]
        exact ⟨(ih (i + 1) [] _ .netE (by simp)).1,
          (ih (i + 1) [] _ .netE (by simp)).2⟩
    · have hfo1 := hfail fo1 (List.mem_cons_self _ _)
      have hrest : ∀ fo ∈ rest, noTextOut fo = true :=
        fun fo hf => hfail fo (List.mem_cons_of_mem _ hf)
      rcases fo1 with ⟨lat, res⟩
      rcases res with tOpt | ⟨st, ra⟩ | _
      · rcases tOpt with _ | txt
        · simp only [runModel, List.headD_cons, List.tail_cons]
          exact ⟨by first | rfl | trivial, List.suffix_cons _ _⟩
        · simp [noTextOut] at hfo1
      · simp only [runModel, List.headD_cons, List.tail_cons]
        by_cases h429 : st = 429
        · rw [if_pos h429]
          rcases ra with _ | r
          · exact ⟨by first | rfl | trivial, List.suffix_cons _ _⟩
          · exact ⟨(ih (i + 1) rest _ .e429 hrest).1,
              ((ih (i + 1) rest _ .e429 hrest).2).trans (List.suffix_cons _ _)⟩
        · rw [if_neg h429]
          exact ⟨by first | rfl | trivial, List.suffix_cons _ _⟩
      · simp only [runModel, List.headD_cons, List.tail_cons]
        by_cases hk0 : k' = 0
        · rw [if_pos hk0]
          exact ⟨by first | rfl | trivial, List.suffix_cons _ _⟩
        · rw [if_neg hk0]
          exact ⟨(ih (i + 1) rest _ .netE hrest).1,
            ((ih (i + 1) rest _ .netE hrest).2).trans (List.suffix_cons _ _)⟩

theorem runModels_all_fail :
    ∀ (models : List Str) (outs : List FOut) (t : Nat) (le : LastErr),
    (∀ fo ∈ outs, noTextOut fo = true) →
    (runModels models outs t le).txt = none := by
  intro models
  induction models with
  | nil =>
    intro outs t le _
    rfl
  | cons m ms ih =>
    intro outs t le hfail
    have h1 := runModel_all_fail m 2 0 outs t le hfail
    rw [runModels]
    simp only [h1.1]
    have hrem : ∀ fo ∈ (runModel m 2 0 outs t le).rem, noTextOut fo = true :=
      fun fo hf => hfail fo (h1.2.subset hf)
    exact ih _ _ _ hrem

theorem bodyFetchOffsets_head (outs : List FOut) :
    (bodyFetchOffsets outs).head? = some 0 := by
  have hf : ∃ z, (runModel ("gemini-3-flash-preview".data) 2 0 outs 0 .noneE).fetches
      = 0 :: z := ⟨_, rfl⟩
  rcases hf with ⟨z, hz⟩
  unfold bodyFetchOffsets geminiBody modelNames
  rw [runModels]
  cases htxt : (runModel ("gemini-3-flash-preview".data) 2 0 outs 0 .noneE).txt with
  | some txt =>
    simp only [htxt, hz]
    rfl
  | none =>
    simp only [htxt, hz]
    rfl

/-- C3 counterexample: within one scheduled `callGeminiAPI` operation the
code issues two outbound calls 100 ms apart (a next-model attempt follows a
non-429 failure with no wait), far below `MIN_INTERVAL` = 3500 ms, so the
minimum spacing does not hold across every issued call. -/
theorem intraOp_calls_below_min_interval :
    bodyFetchOffsets c3Outs = [0, 100]
    ∧ ¬ List.Chain' (fun a b => a + MIN_INTERVAL ≤ b) (bodyFetchOffsets c3Outs) := by
  have he : bodyFetchOffsets c3Outs = [0, 100] := by decide
  refine ⟨he, ?_⟩
  rw [he]
  intro h
  exact absurd (List.chain'_cons.1 h).1 (by decide)

/-- C3 (amended): the minimum-interval guarantee holds at the granularity of
scheduled operations: start times of queued `callGeminiAPI` operations are
at least `MIN_INTERVAL` apart, and each operation issues its first outbound
call at its start (offset 0), so consecutive operations' first calls are so
spaced; calls within one operation are not (see the counterexample). -/
theorem scheduled_gemini_ops_spaced (s : SchedState)
    (outsList : List (List FOut)) (outs : List FOut) :
    List.Chain' (fun a b => a + MIN_INTERVAL ≤ b) (geminiOpStarts s outsList)
    ∧ (bodyFetchOffsets outs).head? = some 0 :=
  ⟨runSched_chain s _, bodyFetchOffsets_head outs⟩

/-- C5 counterexample: with an empty API key, `callGeminiAPI` throws
(rejects) instead of resolving with a degraded `Explanation`. -/
theorem callGeminiAPI_empty_key_throws :
    callGeminiAPIm [] [] = Except.error ("Gemini API key is required".data)
    ∧ exceptOk (callGeminiAPIm [] []) = false :=
  ⟨rfl, rfl⟩

/-- C5 (amended): with a non-empty API key, `callGeminiAPI` always resolves;
when every attempt fails to produce a candidate text it resolves with a
degraded `Explanation` whose content starts with the warning sign and whose
snippet list is empty, and never rejects. -/
theorem callGeminiAPI_degrades (apiKey : Str) (outs : List FOut)
    (hk : apiKey ≠ [])
    (hfail : ∀ fo ∈ outs, noTextOut fo = true) :
    callGeminiAPIm apiKey outs = Except.ok (bodyResult outs)
    ∧ "⚠️".data <+: (bodyResult outs).content
    ∧ (bodyResult outs).codeSnippets = [] := by
  have htxt : (geminiBody outs).txt = none :=
    runModels_all_fail modelNames outs 0 .noneE hfail
  have hb : bodyResult outs
      = (if (geminiBody outs).le = .e429 then (⟨rateLimitMsg, []⟩ : Explanation)
         else ⟨genFailMsg (geminiBody outs).le, []⟩) := by
    unfold bodyResult
    rw [htxt]
  refine ⟨by rw [callGeminiAPIm, if_neg hk], ?_, ?_⟩
  · rw [hb]
    by_cases he : (geminiBody outs).le = .e429
    · rw [if_pos he]
      decide
    · rw [if_neg he]
      show "⚠️".data <+: genFailMsg (geminiBody outs).le
      have h1 : "⚠️".data <+: "⚠️ Generation Failed.\nLast error: ".data := by
        decide
      exact h1.trans (List.prefix_append _ _)
  · rw [hb]
    by_cases he : (geminiBody outs).le = .e429
    · rw [if_pos he]
    · rw [if_neg he]

/-- Witness for the amended C5 at a concrete key and failing outcomes. -/
theorem callGeminiAPI_degrades_witness :
    callGeminiAPIm ("k".data) failOuts = Except.ok (bodyResult failOuts)
    ∧ "⚠️".data <+: (bodyResult failOuts).content
    ∧ (bodyResult failOuts).codeSnippets = [] :=
  callGeminiAPI_degrades ("k".data) failOuts (by decide) (by decide)

theorem archAttemptLoop_all_fail (jparse : Str → Option DiagramData)
    (now : Nat) (store : CacheStore Str) (key : Str) (tree : DTree) :
    ∀ (k : Nat) (outs : List FOut) (count : Nat),
    (∀ fo ∈ outs, archAttemptFails jparse fo = true) →
    archAttemptLoop jparse now store key tree k outs count
      = (generateLocalArchitecture tree, store, count + k) := by
  intro k
  induction k with
  | zero =>
    intro outs count _
    rfl
  | succ k' ih =>
    intro outs count hfail
    have harith : count + (k' + 1) = (count + 1) + k' := by omega
    rw [harith]
    rcases outs with _ | ⟨fo1, rest⟩
    · rw [archAttemptLoop]
      have hd : archAttempt jparse (([] : List FOut).headD ⟨0, .netErr⟩) = none := rfl
      rw [hd]
      exact ih [] (count + 1) (by simp)
    · have hfo1 := hfail fo1 (List.mem_cons_self _ _)
      rw [archAttemptFails, Option.isNone_iff_eq_none] at hfo1
      rw [archAttemptLoop]
      have hd : archAttempt jparse ((fo1 :: rest).headD ⟨0, .netErr⟩) = none := by
        rw [List.headD_cons]
        exact hfo1
      rw [hd]
      exact ih rest (count + 1)
        (fun fo hf => hfail fo (List.mem_cons_of_mem _ hf))

/-- C9: when the diagram cache key is absent and every AI attempt fails, the
request resolves with the local fallback diagram, the storage is completely
unchanged (`cacheService.set` runs only on the success path, so the fallback
is never stored), three inference calls were issued, and a subsequent
request for the same key again issues three inference calls instead of
serving the fallback from the cache. -/
theorem fallback_not_cached (jparse : Str → Option DiagramData)
    (now now2 : Nat) (store : CacheStore Str) (repoName : Str) (tree : DTree)
    (outs outs2 : List FOut)
    (habsent : store (cachePre ++ generateKey repoName ("root".data) .diagram) = none)
    (hfail : ∀ fo ∈ outs, archAttemptFails jparse fo = true)
    (hfail2 : ∀ fo ∈ outs2, archAttemptFails jparse fo = true) :
    generateArchitectureDiagramM jparse now store repoName tree outs
      = (generateLocalArchitecture tree, store, 3)
    ∧ generateArchitectureDiagramM jparse now2 store repoName tree outs2
      = (generateLocalArchitecture tree, store, 3) := by
  have hget : ∀ n : Nat, cacheGet n store (generateKey repoName ("root".data) .diagram)
      = (none, store) := by
    intro n
    unfold cacheGet
    rw [habsent]
  constructor
  · unfold generateArchitectureDiagramM
    rw [hget now]
    exact archAttemptLoop_all_fail jparse now store _ tree 3 outs 0 hfail
  · unfold generateArchitectureDiagramM
    rw [hget now2]
    exact archAttemptLoop_all_fail jparse now2 store _ tree 3 outs2 0 hfail2

/-- Witness for C9 at an empty storage and failing outcomes. -/
theorem fallback_not_cached_witness :
    generateArchitectureDiagramM (fun _ => none) 0 emptyStore ("r".data) demoTree failOuts
      = (generateLocalArchitecture demoTree, emptyStore, 3)
    ∧ generateArchitectureDiagramM (fun _ => none) 5 emptyStore ("r".data) demoTree failOuts
      = (generateLocalArchitecture demoTree, emptyStore, 3) :=
  fallback_not_cached (fun _ => none) 0 5 emptyStore ("r".data) demoTree failOuts
    failOuts rfl (by decide) (by decide)

/-- C4 (amended): the user-facing entry point `generateArchitectureDiagram`
always resolves with some markup and never propagates an error: on a cache
miss (or falsy cached value), when every attempt fails, it resolves with the
locally generated fallback diagram built from the directory tree.  (The
secondary path `architectureGenerator.generateDiagram` does propagate; see
the counterexample.) -/
theorem archDiagram_always_resolves (jparse : Str → Option DiagramData)
    (now : Nat) (store : CacheStore Str) (repoName : Str) (tree : DTree)
    (outs : List FOut)
    (hmiss : (cacheGet now store (generateKey repoName ("root".data) .diagram)).1.getD [] = [])
    (hfail : ∀ fo ∈ outs, archAttemptFails jparse fo = true) :
    (generateArchitectureDiagramM jparse now store repoName tree outs).1
      = generateLocalArchitecture tree := by
  unfold generateArchitectureDiagramM
  rcases hget : cacheGet now store (generateKey repoName ("root".data) .diagram)
    with ⟨opt, store'⟩
  rcases opt with _ | d
  · show (archAttemptLoop jparse now store'
        (generateKey repoName ("root".data) .diagram) tree 3 outs 0).1
      = generateLocalArchitecture tree
    rw [archAttemptLoop_all_fail jparse now store' _ tree 3 outs 0 hfail]
  · have hd : d = [] := by
      rw [hget] at hmiss
      exact hmiss
    show (if d = [] then
        archAttemptLoop jparse now store'
          (generateKey repoName ("root".data) .diagram) tree 3 outs 0
      else (d, store', 0)).1 = generateLocalArchitecture tree
    rw [if_pos hd,
      archAttemptLoop_all_fail jparse now store' _ tree 3 outs 0 hfail]

/-- Witness for the amended C4. -/
theorem archDiagram_always_resolves_witness :
    (generateArchitectureDiagramM (fun _ => none) 1 emptyStore ("repo".data)
      demoTree failOuts).1 = generateLocalArchitecture demoTree :=
  archDiagram_always_resolves (fun _ => none) 1 emptyStore ("repo".data) demoTree
    failOuts (by decide) (by decide)

/-- C4 counterexample: `architectureGenerator.generateDiagram` propagates the
failure to its caller: with a valid key and all attempts failing, the
degraded free-text result makes `extractArchitectureData` throw, and
`generateDiagram` rejects instead of resolving with a fallback diagram. -/
theorem generateDiagram_propagates_error :
    exceptOk (generateDiagramAG (fun _ => none) ("k".data) failOuts) = false := by
  decide
